import Mathlib

/-!
Shallow embedding of the Tetris game engine found in
`src/components/Tetris.tsx` (a React component).  The presentation layer
(rendering, colors, timers) is excluded; the game state and the pure
transition logic are translated function by function.  Positions are `Int`
because the source uses JS numbers and the merge step explicitly tests for
negative board rows; cells are `Nat` (0 = empty, nonzero = occupied), as in
the source, which stores 0/1 and tests truthiness.
-/

namespace Tetris

def BOARD_WIDTH : Nat := 10

def BOARD_HEIGHT : Nat := 20

def INITIAL_SPEED : Nat := 800

/-- The seven tetromino kinds, keys of the `TETROMINOES` object. -/
inductive Kind where
  | I | O | T | L | J | S | Z
  deriving DecidableEq

abbrev Shape := List (List Nat)

abbrev Board := List (List Nat)

/-- The `TETROMINOES` constant: canonical base mask of each kind. -/
def TETROMINOES : Kind → Shape
  | .I => [[1, 1, 1, 1]]
  | .O => [[1, 1], [1, 1]]
  | .T => [[0, 1, 0], [1, 1, 1]]
  | .L => [[1, 0], [1, 0], [1, 1]]
  | .J => [[0, 1], [0, 1], [1, 1]]
  | .S => [[0, 1, 1], [1, 1, 0]]
  | .Z => [[1, 1, 0], [0, 1, 1]]

structure Position where
  x : Int
  y : Int
  deriving DecidableEq

def emptyRow : List Nat := List.replicate BOARD_WIDTH 0

/-- `createEmptyBoard`: `Array(BOARD_HEIGHT).fill(Array(BOARD_WIDTH).fill(0))`. -/
def createEmptyBoard : Board := List.replicate BOARD_HEIGHT emptyRow

/-- Read `board[y][x]`; out-of-range reads default to 0 (empty). The source
only reads the board at indices already checked to be in range. -/
def boardGet (b : Board) (y x : Int) : Nat :=
  (b.getD y.toNat []).getD x.toNat 0

/-- `isColliding(pos, shape)`: some set cell of `shape` placed at `pos` is out
of the left/right/bottom bounds, or overlaps an occupied board cell at a
nonnegative row. -/
def isColliding (board : Board) (shape : Shape) (pos : Position) : Bool :=
  (List.range shape.length).any fun y =>
    (List.range (shape.getD y []).length).any fun x =>
      ((shape.getD y []).getD x 0 != 0) &&
        (decide (pos.x + (x : Int) < 0) ||
         decide ((BOARD_WIDTH : Int) ≤ pos.x + (x : Int)) ||
         decide ((BOARD_HEIGHT : Int) ≤ pos.y + (y : Int)) ||
         (decide (0 ≤ pos.y + (y : Int)) &&
           (boardGet board (pos.y + (y : Int)) (pos.x + (x : Int)) != 0)))

/-- `rotate`: `tetromino[0].map((_, i) => tetromino.map((row) => row[i]).reverse())`
— transpose followed by reversing each new row (90 degrees clockwise). -/
def rotateShape (t : Shape) : Shape :=
  (List.range (t.headD []).length).map fun i =>
    (t.map fun row => row.getD i 0).reverse

/-- `newBoard[boardY][position.x + x] = 1` (indices checked by the caller). -/
def setCell (b : Board) (y x : Int) : Board :=
  b.set y.toNat ((b.getD y.toNat []).set x.toNat 1)

/-- Inner loop of `mergeTetromino` over one mask row: write each set cell, or
abort (top-out) when its board row is negative. -/
def mergeRowCells (pos : Position) (y : Nat) : Board → List Nat → Nat → Option Board
  | b, [], _ => some b
  | b, c :: rest, x =>
    if c != 0 then
      if pos.y + (y : Int) < 0 then none
      else mergeRowCells pos y (setCell b (pos.y + (y : Int)) (pos.x + (x : Int))) rest (x + 1)
    else mergeRowCells pos y b rest (x + 1)

/-- Outer loop of `mergeTetromino` over the mask rows. `none` signals the
top-out early return (`setGameOver(true); return;`), in which case
`setBoard` is never called. -/
def mergeAllCells (pos : Position) : Board → Shape → Nat → Option Board
  | b, [], _ => some b
  | b, row :: rest, y =>
    match mergeRowCells pos y b row 0 with
    | none => none
    | some b' => mergeAllCells pos b' rest (y + 1)

/-- `newBoard[y].every((cell) => cell)`. -/
def rowFull (r : List Nat) : Bool := r.all fun c => c != 0

/-- The completed-lines loop of `mergeTetromino`:
`for (y = BOARD_HEIGHT-1; y >= 0; y--) if (full) { count++; splice(y,1); unshift(empty) }`.
`clearRows (n+1) b` processes index `n` and then indices `n-1 … 0` on the
updated board, exactly as the source's descending loop does. -/
def clearRows : Nat → Board → Board × Nat
  | 0, b => (b, 0)
  | n + 1, b =>
    if rowFull (b.getD n []) then
      let p := clearRows n (emptyRow :: b.eraseIdx n)
      (p.1, p.2 + 1)
    else
      clearRows n b

def scoreTable : List Nat := [0, 100, 300, 500, 800]

/-- The full game state held in the component's `useState` hooks. -/
structure GameState where
  board : Board
  position : Position
  tetromino : Shape
  tetrominoType : Kind
  score : Nat
  gameOver : Bool
  isPaused : Bool
  speed : Nat
  deriving DecidableEq

/-- `mergeTetromino`, parameterized by the kind the random spawn draws:
merge the piece (or set game-over on top-out and change nothing else),
run the completed-lines loop, add the score-table points and speed up when
lines were completed, and place the freshly spawned piece at (4, 0). -/
def mergeTetromino (k : Kind) (s : GameState) : GameState :=
  match mergeAllCells s.position s.board s.tetromino 0 with
  | none => { s with gameOver := true }
  | some nb =>
    let p := clearRows BOARD_HEIGHT nb
    let s1 := { s with board := p.1 }
    let s2 :=
      if 0 < p.2 then
        { s1 with
          score := s1.score + scoreTable.getD p.2 0
          speed := max 100 (s1.speed - 10) }
      else s1
    { s2 with tetromino := TETROMINOES k, tetrominoType := k, position := ⟨4, 0⟩ }

/-- `moveHorizontal(delta)`: commit the shifted origin unless it collides. -/
def moveHorizontal (delta : Int) (s : GameState) : GameState :=
  let newPos : Position := ⟨s.position.x + delta, s.position.y⟩
  if isColliding s.board s.tetromino newPos then s else { s with position := newPos }

/-- `moveDown()`: move one row down if legal; the Bool is the return value. -/
def moveDown (s : GameState) : GameState × Bool :=
  let newPos : Position := ⟨s.position.x, s.position.y + 1⟩
  if isColliding s.board s.tetromino newPos then (s, false)
  else ({ s with position := newPos }, true)

/-- `rotate()` as a command: commit the rotated mask unless it collides at the
current origin. -/
def rotateCmd (s : GameState) : GameState :=
  let rotated := rotateShape s.tetromino
  if isColliding s.board rotated s.position then s else { s with tetromino := rotated }

/-- The space-key case of `handleKeyPress` is `while (moveDown()) {}`, where
`moveDown` is a `useCallback` closing over the render's `position` constant.
`setPosition(newPos)` does not change that binding during the synchronous
keydown handler, so every iteration of the loop evaluates `moveDown` on the
same state: if the one-row move is illegal the loop exits at once with no
state change committed, and if it is legal the loop never terminates (the
scheduled position updates are never observed).  This is the faithful result
of the command: `some s` when the loop exits, `none` for the divergence. -/
def hardDropResult (s : GameState) : Option GameState :=
  if (moveDown s).2 then none else some s

/-- Fueled, position-threading descent.  This is NOT the source loop (see
`hardDropResult`: the real loop either changes nothing or diverges); it is
used only to over-approximate the space key inside the event relation `Step`.
The set of states it can produce contains everything the real key can ever
commit — the unchanged state when the loop exits — so invariants proved over
the relation also hold of the program. -/
def dropDescentAux : Nat → GameState → GameState
  | 0, s => s
  | n + 1, s =>
    let p := moveDown s
    if p.2 then dropDescentAux n p.1 else p.1

def dropDescent (s : GameState) : GameState := dropDescentAux (BOARD_HEIGHT + 1) s

inductive Cmd where
  | left | right | down | rotate | drop
  deriving DecidableEq

/-- `handleKeyPress`: ignored when `gameOver || isPaused`, else dispatch.
The `' '` (hard drop) case never calls `mergeTetromino`; its loop is modeled
faithfully by `hardDropResult` and over-approximated here by `dropDescent`
so that the event relation stays total (see the `dropDescent` comment). -/
def handleKey (c : Cmd) (s : GameState) : GameState :=
  if s.gameOver || s.isPaused then s
  else
    match c with
    | .left => moveHorizontal (-1) s
    | .right => moveHorizontal 1 s
    | .down => (moveDown s).1
    | .rotate => rotateCmd s
    | .drop => dropDescent s

/-- The `useInterval` callback (`if (!moveDown()) mergeTetromino()`), which is
scheduled only while `!gameOver && !isPaused` (the delay is `null`
otherwise), parameterized by the kind a merge would spawn. -/
def tick (k : Kind) (s : GameState) : GameState :=
  if s.gameOver || s.isPaused then s
  else
    let p := moveDown s
    if p.2 then p.1 else mergeTetromino k p.1

/-- The pause/resume button: `setIsPaused(!isPaused)`. -/
def togglePause (s : GameState) : GameState := { s with isPaused := !s.isPaused }

/-- `resetGame`, parameterized by the kind `getRandomTetromino` draws.  Note
the source resets board, position, piece, score, gameOver and speed, but
never calls `setIsPaused`. -/
def resetGame (k : Kind) (s : GameState) : GameState :=
  { s with
    board := createEmptyBoard
    position := ⟨4, 0⟩
    tetromino := TETROMINOES k
    tetrominoType := k
    score := 0
    gameOver := false
    speed := INITIAL_SPEED }

/-- The component's initial `useState` values. -/
def initState : GameState :=
  { board := createEmptyBoard
    position := ⟨4, 0⟩
    tetromino := TETROMINOES .I
    tetrominoType := .I
    score := 0
    gameOver := false
    isPaused := false
    speed := INITIAL_SPEED }

/-- One externally triggered event: a gravity tick, a key press, the
pause/resume button, or the reset button.  The spawned kind is arbitrary
(the source draws it from `Math.random`). -/
inductive Step : GameState → GameState → Prop
  | tick (k : Kind) (s : GameState) : Step s (tick k s)
  | key (c : Cmd) (s : GameState) : Step s (handleKey c s)
  | pause (s : GameState) : Step s (togglePause s)
  | reset (k : Kind) (s : GameState) : Step s (resetGame k s)

/-- States reachable from the initial render by any event sequence. -/
inductive Reachable : GameState → Prop
  | init : Reachable initState
  | step {s s' : GameState} : Reachable s → Step s s' → Reachable s'

/-! ### Characterization of the collision predicate -/

theorem isColliding_eq_true_iff (b : Board) (shape : Shape) (pos : Position) :
    isColliding b shape pos = true ↔
      ∃ y < shape.length, ∃ x < (shape.getD y []).length,
        (shape.getD y []).getD x 0 ≠ 0 ∧
          (pos.x + (x : Int) < 0 ∨ (BOARD_WIDTH : Int) ≤ pos.x + (x : Int) ∨
           (BOARD_HEIGHT : Int) ≤ pos.y + (y : Int) ∨
           (0 ≤ pos.y + (y : Int) ∧ boardGet b (pos.y + (y : Int)) (pos.x + (x : Int)) ≠ 0)) := by
  simp only [isColliding, List.any_eq_true, List.mem_range, Bool.and_eq_true,
    Bool.or_eq_true, decide_eq_true_eq, bne_iff_ne, ne_eq]
  constructor
  · rintro ⟨y, hy, x, hx, hset, hcol⟩
    exact ⟨y, hy, x, hx, hset, by tauto⟩
  · rintro ⟨y, hy, x, hx, hset, hcol⟩
    exact ⟨y, hy, x, hx, hset, by tauto⟩

theorem isColliding_eq_false_iff (b : Board) (shape : Shape) (pos : Position) :
    isColliding b shape pos = false ↔
      ∀ y < shape.length, ∀ x < (shape.getD y []).length,
        (shape.getD y []).getD x 0 ≠ 0 →
          0 ≤ pos.x + (x : Int) ∧ pos.x + (x : Int) < BOARD_WIDTH ∧
          pos.y + (y : Int) < BOARD_HEIGHT ∧
          (0 ≤ pos.y + (y : Int) → boardGet b (pos.y + (y : Int)) (pos.x + (x : Int)) = 0) := by
  rw [← Bool.not_eq_true, isColliding_eq_true_iff]
  push_neg
  exact Iff.rfl

/-! ### Behaviour of the merge loops -/

theorem mergeRowCells_isSome (pos : Position) (y : Nat) (hy : 0 ≤ pos.y + (y : Int)) :
    ∀ (row : List Nat) (b : Board) (x : Nat), ∃ b', mergeRowCells pos y b row x = some b' := by
  intro row
  induction row with
  | nil => intro b x; exact ⟨b, rfl⟩
  | cons c rest ih =>
    intro b x
    by_cases hc : (c != 0) = true
    · simpa [mergeRowCells, hc, not_lt_of_le hy] using ih _ (x + 1)
    · simpa [mergeRowCells, hc] using ih b (x + 1)

theorem mergeAllCells_isSome (pos : Position) (hy : 0 ≤ pos.y) :
    ∀ (rows : Shape) (b : Board) (y : Nat), ∃ b', mergeAllCells pos b rows y = some b' := by
  intro rows
  induction rows with
  | nil => intro b y; exact ⟨b, rfl⟩
  | cons row rest ih =>
    intro b y
    have hy' : 0 ≤ pos.y + (y : Int) := by positivity
    obtain ⟨b', hb'⟩ := mergeRowCells_isSome pos y hy' row b 0
    simpa [mergeAllCells, hb'] using ih b' (y + 1)

theorem mergeRowCells_eq_none (pos : Position) (y : Nat) (hy : pos.y + (y : Int) < 0) :
    ∀ (row : List Nat) (b : Board) (x : Nat), (∃ c ∈ row, c ≠ 0) →
      mergeRowCells pos y b row x = none := by
  intro row
  induction row with
  | nil => rintro b x ⟨c, hc, -⟩; cases hc
  | cons c rest ih =>
    rintro b x ⟨c', hc', hc0⟩
    by_cases hc : (c != 0) = true
    · simp [mergeRowCells, hc, hy]
    · have hcz : c = 0 := by simpa using hc
      have : c' ∈ rest := by
        rcases List.mem_cons.mp hc' with h | h
        · exact absurd (h ▸ hcz) hc0
        · exact h
      simpa [mergeRowCells, hc] using ih b (x + 1) ⟨c', this, hc0⟩

theorem mergeAllCells_eq_none (pos : Position) :
    ∀ (rows : Shape) (b : Board) (y : Nat),
      (∃ i < rows.length, pos.y + ((y + i : Nat) : Int) < 0 ∧ ∃ c ∈ rows.getD i [], c ≠ 0) →
      mergeAllCells pos b rows y = none := by
  intro rows
  induction rows with
  | nil => rintro b y ⟨i, hi, -⟩; cases hi
  | cons row rest ih =>
    rintro b y ⟨i, hi, hneg, hset⟩
    cases i with
    | zero =>
      have : mergeRowCells pos y b row 0 = none := by
        apply mergeRowCells_eq_none pos y _ row b 0 (by simpa using hset)
        simpa using hneg
      simp [mergeAllCells, this]
    | succ j =>
      rcases h : mergeRowCells pos y b row 0 with _ | b'
      · simp [mergeAllCells, h]
      · have : mergeAllCells pos b' rest (y + 1) = none := by
          apply ih b' (y + 1)
          refine ⟨j, by simpa using hi, ?_, by simpa using hset⟩
          have : (y + 1) + j = y + (j + 1) := by omega
          rw [this]
          exact hneg
        simp [mergeAllCells, h, this]

/-! ### Board well-formedness: dimensions never change -/

def BoardWF (b : Board) : Prop :=
  b.length = BOARD_HEIGHT ∧ ∀ r ∈ b, r.length = BOARD_WIDTH

theorem boardWF_empty : BoardWF createEmptyBoard := by
  constructor
  · simp [createEmptyBoard]
  · intro r hr
    have := List.eq_of_mem_replicate hr
    simp [this, emptyRow]

theorem setCell_wf (b : Board) (y x : Int) (h : BoardWF b) : BoardWF (setCell b y x) := by
  obtain ⟨hlen, hrow⟩ := h
  by_cases hy : y.toNat < b.length
  · constructor
    · simp [setCell, hlen]
    · intro r hr
      rcases List.mem_or_eq_of_mem_set hr with h | h
      · exact hrow r h
      · subst h
        rw [List.length_set, List.getD_eq_getElem _ _ hy]
        exact hrow _ (List.getElem_mem hy)
  · rw [setCell, List.set_eq_of_length_le (le_of_not_lt hy)]
    exact ⟨hlen, hrow⟩

theorem mergeRowCells_wf (pos : Position) (y : Nat) :
    ∀ (row : List Nat) (b b' : Board) (x : Nat), BoardWF b →
      mergeRowCells pos y b row x = some b' → BoardWF b' := by
  intro row
  induction row with
  | nil =>
    intro b b' x hwf h
    simp only [mergeRowCells, Option.some.injEq] at h
    exact h ▸ hwf
  | cons c rest ih =>
    intro b b' x hwf h
    by_cases hc : (c != 0) = true
    · by_cases hneg : pos.y + (y : Int) < 0
      · simp [mergeRowCells, hc, hneg] at h
      · simp only [mergeRowCells, hc, if_pos rfl, if_neg hneg] at h
        exact ih _ b' (x + 1) (setCell_wf _ _ _ hwf) h
    · simp only [mergeRowCells, hc] at h
      exact ih b b' (x + 1) hwf h

theorem mergeAllCells_wf (pos : Position) :
    ∀ (rows : Shape) (b b' : Board) (y : Nat), BoardWF b →
      mergeAllCells pos b rows y = some b' → BoardWF b' := by
  intro rows
  induction rows with
  | nil =>
    intro b b' y hwf h
    simp only [mergeAllCells, Option.some.injEq] at h
    exact h ▸ hwf
  | cons row rest ih =>
    intro b b' y hwf h
    rcases hrc : mergeRowCells pos y b row 0 with _ | b1
    · simp [mergeAllCells, hrc] at h
    · simp only [mergeAllCells, hrc] at h
      exact ih b1 b' (y + 1) (mergeRowCells_wf pos y row b b1 0 hwf hrc) h

theorem clearRows_wf :
    ∀ (n : Nat) (b : Board), n ≤ b.length →
      (clearRows n b).1.length = b.length ∧
        ∀ r ∈ (clearRows n b).1, r = emptyRow ∨ r ∈ b := by
  intro n
  induction n with
  | zero => intro b _; exact ⟨rfl, fun r hr => Or.inr hr⟩
  | succ m ih =>
    intro b hn
    have hm : m < b.length := hn
    by_cases hfull : rowFull (b.getD m []) = true
    · have hlen' : (emptyRow :: b.eraseIdx m).length = b.length := by
        simp [List.length_eraseIdx, hm]
        omega
      obtain ⟨h1, h2⟩ := ih (emptyRow :: b.eraseIdx m) (by omega)
      rw [clearRows, if_pos hfull]
      refine ⟨by rw [h1, hlen'], ?_⟩
      intro r hr
      rcases h2 r hr with h | h
      · exact Or.inl h
      · rcases List.mem_cons.mp h with h | h
        · exact Or.inl h
        · exact Or.inr ((b.eraseIdx_sublist m).mem h)
    · rw [clearRows, if_neg hfull]
      exact ih b (by omega)

/-! ### The rotation transform -/

/-- A rectangular mask with `h` rows, each of width `w`. -/
def RectMask (m : Shape) (h w : Nat) : Prop :=
  m.length = h ∧ ∀ r ∈ m, r.length = w

theorem headD_length_of_rect {m : Shape} {h w : Nat} (hm : RectMask m h w) (hh : 0 < h) :
    (m.headD []).length = w := by
  obtain ⟨hlen, hrow⟩ := hm
  cases m with
  | nil => rw [List.length_nil] at hlen; omega
  | cons a t => simpa using hrow a (List.mem_cons_self a t)

theorem rotateShape_rect {m : Shape} {h w : Nat} (hm : RectMask m h w) (hh : 0 < h) :
    RectMask (rotateShape m) w h := by
  constructor
  · simp only [rotateShape, List.length_map, List.length_range]
    exact headD_length_of_rect hm hh
  · intro r hr
    simp only [rotateShape, List.mem_map] at hr
    obtain ⟨i, _, hi⟩ := hr
    simp [← hi, hm.1]

theorem rotateShape_getD {m : Shape} {h w : Nat} (hm : RectMask m h w) (hh : 0 < h)
    {i j : Nat} (hi : i < w) (hj : j < h) :
    ((rotateShape m).getD i []).getD j 0 = (m.getD (h - 1 - j) []).getD i 0 := by
  have hrect := rotateShape_rect hm hh
  have hilen : i < (rotateShape m).length := by rw [hrect.1]; exact hi
  have hrow : (rotateShape m).getD i [] = (m.map fun row => row.getD i 0).reverse := by
    rw [List.getD_eq_getElem _ _ hilen]
    simp [rotateShape]
  rw [hrow]
  have hjlen : j < ((m.map fun row => row.getD i 0).reverse).length := by
    simp [hm.1]; exact hj
  rw [List.getD_eq_getElem _ _ hjlen]
  rw [List.getElem_reverse]
  simp only [List.length_map, hm.1]
  have hmlt : h - 1 - j < m.length := by rw [hm.1]; omega
  rw [List.getElem_map, List.getD_eq_getElem _ _ hmlt]

theorem rotateShape_four {m : Shape} {h w : Nat} (hm : RectMask m h w)
    (hh : 0 < h) (hw : 0 < w) :
    rotateShape (rotateShape (rotateShape (rotateShape m))) = m := by
  have h1 := rotateShape_rect hm hh
  have h2 := rotateShape_rect h1 hw
  have h3 := rotateShape_rect h2 hh
  have h4 := rotateShape_rect h3 hw
  have hcell : ∀ i < h, ∀ j < w,
      ((rotateShape (rotateShape (rotateShape (rotateShape m)))).getD i []).getD j 0 =
        (m.getD i []).getD j 0 := by
    intro i hi j hj
    rw [rotateShape_getD h3 hw hi (by omega)]
    rw [rotateShape_getD h2 hh (by omega) (by omega)]
    rw [rotateShape_getD h1 hw (by omega) (by omega)]
    rw [rotateShape_getD hm hh (by omega) (by omega)]
    congr 2
    · omega
    · omega
  -- extensionality over a rectangular mask
  apply List.ext_getElem (by rw [h4.1, hm.1])
  intro i hi1 hi2
  apply List.ext_getElem
  · rw [h4.2 _ (List.getElem_mem hi1), hm.2 _ (List.getElem_mem hi2)]
  · intro j hj1 hj2
    have hih : i < h := by rw [← hm.1]; exact hi2
    have hjw : j < w := by
      have := hm.2 _ (List.getElem_mem hi2)
      omega
    have := hcell i hih j hjw
    rwa [List.getD_eq_getElem _ _ hi1, List.getD_eq_getElem _ _ hi2,
      List.getD_eq_getElem _ _ hj1, List.getD_eq_getElem _ _ hj2] at this

/-! ### The completed-lines loop -/

theorem rowFull_emptyRow : rowFull emptyRow = false := by decide

theorem getD_eq_getElemq (b : Board) (i : Nat) : b[i]?.getD [] = b.getD i [] :=
  (List.getD_eq_getElem?_getD b i []).symm

theorem clearRows_of_no_full :
    ∀ (n : Nat) (b : Board), (∀ i < n, rowFull (b.getD i []) = false) →
      clearRows n b = (b, 0) := by
  intro n
  induction n with
  | zero => intro b _; rfl
  | succ m ih =>
    intro b hno
    have hm : rowFull (b.getD m []) = false := hno m (by omega)
    rw [clearRows, if_neg (by simp only [getD_eq_getElemq, hm]; exact Bool.false_ne_true)]
    exact ih b fun i hi => hno i (by omega)

theorem getD_eraseIdx_of_lt (b : Board) (j i : Nat) (hij : i < j) (hj : j < b.length) :
    (b.eraseIdx j).getD i [] = b.getD i [] := by
  have hi : i < (b.eraseIdx j).length := by
    rw [List.length_eraseIdx_of_lt hj]
    omega
  rw [List.getD_eq_getElem _ _ hi, List.getD_eq_getElem _ _ (by omega),
    List.getElem_eraseIdx_of_lt]
  omega

theorem clearRows_single_full :
    ∀ (n : Nat) (b : Board) (j : Nat), j < n → n ≤ b.length →
      rowFull (b.getD j []) = true →
      (∀ i < n, i ≠ j → rowFull (b.getD i []) = false) →
      clearRows n b = (emptyRow :: b.eraseIdx j, 1) := by
  intro n
  induction n with
  | zero => intro b j hj; omega
  | succ m ih =>
    intro b j hj hn hfull hothers
    by_cases hjm : j = m
    · subst hjm
      rw [clearRows, if_pos hfull]
      have hno : ∀ i < j, rowFull ((emptyRow :: b.eraseIdx j).getD i []) = false := by
        intro i hi
        cases i with
        | zero => simpa [List.getD_cons_zero] using rowFull_emptyRow
        | succ i' =>
          rw [List.getD_cons_succ, getD_eraseIdx_of_lt b j i' (by omega) (by omega)]
          exact hothers i' (by omega) (by omega)
      rw [clearRows_of_no_full j _ hno]
    · have hm : rowFull (b.getD m []) = false := hothers m (by omega) (Ne.symm (by omega))
      rw [clearRows, if_neg (by simp only [getD_eq_getElemq, hm]; exact Bool.false_ne_true)]
      exact ih b j (by omega) (by omega) hfull fun i hi hij => hothers i (by omega) hij

/-! ### Explicit forms of `mergeTetromino` on each branch -/

theorem mergeTetromino_none {s : GameState} {k : Kind}
    (hm : mergeAllCells s.position s.board s.tetromino 0 = none) :
    mergeTetromino k s = { s with gameOver := true } := by
  simp only [mergeTetromino, hm]

theorem mergeTetromino_some {s : GameState} {k : Kind} {nb : Board}
    (hm : mergeAllCells s.position s.board s.tetromino 0 = some nb) :
    mergeTetromino k s =
      { board := (clearRows BOARD_HEIGHT nb).1
        position := ⟨4, 0⟩
        tetromino := TETROMINOES k
        tetrominoType := k
        score :=
          if 0 < (clearRows BOARD_HEIGHT nb).2 then
            s.score + scoreTable.getD (clearRows BOARD_HEIGHT nb).2 0
          else s.score
        gameOver := s.gameOver
        isPaused := s.isPaused
        speed := if 0 < (clearRows BOARD_HEIGHT nb).2 then max 100 (s.speed - 10) else s.speed } := by
  simp only [mergeTetromino, hm]
  split <;> rfl

/-! ### The reachability invariant -/

/-- Every set cell of the active piece lies inside the board horizontally
and above the bottom. -/
def PieceInBounds (s : GameState) : Prop :=
  ∀ y < s.tetromino.length, ∀ x < (s.tetromino.getD y []).length,
    (s.tetromino.getD y []).getD x 0 ≠ 0 →
      0 ≤ s.position.x + (x : Int) ∧ s.position.x + (x : Int) < BOARD_WIDTH ∧
      s.position.y + (y : Int) < BOARD_HEIGHT

def Inv (s : GameState) : Prop :=
  0 ≤ s.position.y ∧ s.gameOver = false ∧ PieceInBounds s ∧ BoardWF s.board

theorem pieceBounds_of_not_colliding {b : Board} {t : Shape} {p : Position}
    (h : isColliding b t p = false) :
    ∀ y < t.length, ∀ x < (t.getD y []).length, (t.getD y []).getD x 0 ≠ 0 →
      0 ≤ p.x + (x : Int) ∧ p.x + (x : Int) < BOARD_WIDTH ∧ p.y + (y : Int) < BOARD_HEIGHT := by
  intro y hy x hx hset
  obtain ⟨h1, h2, h3, -⟩ := (isColliding_eq_false_iff b t p).mp h y hy x hx hset
  exact ⟨h1, h2, h3⟩

theorem spawn_inBounds (k : Kind) :
    ∀ y < (TETROMINOES k).length, ∀ x < ((TETROMINOES k).getD y []).length,
      ((TETROMINOES k).getD y []).getD x 0 ≠ 0 →
        0 ≤ (4 : Int) + (x : Int) ∧ (4 : Int) + (x : Int) < BOARD_WIDTH ∧
        (0 : Int) + (y : Int) < BOARD_HEIGHT := by
  cases k <;> decide

theorem inv_moveHorizontal {s : GameState} (d : Int) (h : Inv s) : Inv (moveHorizontal d s) := by
  obtain ⟨hy, hover, hpb, hwf⟩ := h
  rw [moveHorizontal]
  split
  · exact ⟨hy, hover, hpb, hwf⟩
  · next hcol =>
    have hc : isColliding s.board s.tetromino ⟨s.position.x + d, s.position.y⟩ = false :=
      Bool.not_eq_true _ ▸ eq_false_of_ne_true hcol
    exact ⟨hy, hover, pieceBounds_of_not_colliding hc, hwf⟩

theorem inv_moveDown {s : GameState} (h : Inv s) : Inv (moveDown s).1 := by
  obtain ⟨hy, hover, hpb, hwf⟩ := h
  rw [moveDown]
  split
  · exact ⟨hy, hover, hpb, hwf⟩
  · next hcol =>
    have hc : isColliding s.board s.tetromino ⟨s.position.x, s.position.y + 1⟩ = false :=
      eq_false_of_ne_true hcol
    exact ⟨by simp; omega, hover, pieceBounds_of_not_colliding hc, hwf⟩

theorem inv_rotateCmd {s : GameState} (h : Inv s) : Inv (rotateCmd s) := by
  obtain ⟨hy, hover, hpb, hwf⟩ := h
  rw [rotateCmd]
  split
  · exact ⟨hy, hover, hpb, hwf⟩
  · next hcol =>
    have hc : isColliding s.board (rotateShape s.tetromino) s.position = false :=
      eq_false_of_ne_true hcol
    exact ⟨hy, hover, pieceBounds_of_not_colliding hc, hwf⟩

theorem clearRows_boardWF {b : Board} (h : BoardWF b) : BoardWF (clearRows BOARD_HEIGHT b).1 := by
  obtain ⟨hl, hr⟩ := h
  obtain ⟨h1, h2⟩ := clearRows_wf BOARD_HEIGHT b (by rw [hl])
  refine ⟨by rw [h1, hl], ?_⟩
  intro r hrr
  rcases h2 r hrr with h | h
  · subst h; simp [emptyRow]
  · exact hr r h

theorem inv_mergeTetromino {s : GameState} (k : Kind) (h : Inv s) : Inv (mergeTetromino k s) := by
  obtain ⟨hy, hover, hpb, hwf⟩ := h
  obtain ⟨nb, hnb⟩ := mergeAllCells_isSome s.position hy s.tetromino s.board 0
  rw [mergeTetromino_some hnb]
  refine ⟨by simp, by simpa using hover, ?_, ?_⟩
  · intro y hy' x hx' hset
    simp only at hy' hx' hset ⊢
    exact spawn_inBounds k y hy' x hx' hset
  · exact clearRows_boardWF (mergeAllCells_wf s.position s.tetromino s.board nb 0 hwf hnb)

theorem inv_dropDescentAux (n : Nat) : ∀ s : GameState, Inv s → Inv (dropDescentAux n s) := by
  induction n with
  | zero => intro s h; exact h
  | succ m ih =>
    intro s h
    rw [dropDescentAux]
    split
    · exact ih _ (inv_moveDown h)
    · exact inv_moveDown h

theorem inv_tick {s : GameState} (k : Kind) (h : Inv s) : Inv (tick k s) := by
  rw [tick]
  split
  · exact h
  · show Inv (if (moveDown s).2 = true then (moveDown s).1 else mergeTetromino k (moveDown s).1)
    split
    · exact inv_moveDown h
    · exact inv_mergeTetromino k (inv_moveDown h)

theorem inv_handleKey {s : GameState} (c : Cmd) (h : Inv s) : Inv (handleKey c s) := by
  rw [handleKey.eq_def]
  split
  · exact h
  · cases c with
    | left => exact inv_moveHorizontal (-1) h
    | right => exact inv_moveHorizontal 1 h
    | down => exact inv_moveDown h
    | rotate => exact inv_rotateCmd h
    | drop => exact inv_dropDescentAux (BOARD_HEIGHT + 1) s h

theorem inv_togglePause {s : GameState} (h : Inv s) : Inv (togglePause s) :=
  ⟨h.1, h.2.1, h.2.2.1, h.2.2.2⟩

theorem inv_resetGame {s : GameState} (k : Kind) : Inv (resetGame k s) := by
  refine ⟨by simp [resetGame], by simp [resetGame], ?_, ?_⟩
  · intro y hy' x hx' hset
    simp only [resetGame] at hy' hx' hset ⊢
    exact spawn_inBounds k y hy' x hx' hset
  · exact boardWF_empty

theorem inv_initState : Inv initState := by
  refine ⟨by simp [initState], by simp [initState], ?_, boardWF_empty⟩
  intro y hy' x hx' hset
  simp only [initState] at hy' hx' hset ⊢
  exact spawn_inBounds .I y hy' x hx' hset

theorem reachable_inv {s : GameState} (h : Reachable s) : Inv s := by
  induction h with
  | init => exact inv_initState
  | step hr hs ih =>
    cases hs with
    | tick k s => exact inv_tick k ih
    | key c s => exact inv_handleKey c ih
    | pause s => exact inv_togglePause ih
    | reset k s => exact inv_resetGame k

/-! ### Concrete scenario states -/

/-- Empty board with an O piece at the spawn origin (4, 0). -/
def stateO : GameState :=
  { initState with tetromino := TETROMINOES .O, tetrominoType := .O }

/-- A board row that is full except columns 4 and 5. -/
def gapRow : List Nat := [1, 1, 1, 1, 0, 0, 1, 1, 1, 1]

/-- A completely occupied row. -/
def fullRow : List Nat := List.replicate BOARD_WIDTH 1

/-- Failing input for the simultaneous-clear claim: rows 18 and 19 are full
except the two columns under the O piece, which sits at (4, 18), unable to
move further down, so locking it completes both rows at once. -/
def doubleRowState : GameState :=
  { board := List.replicate 18 emptyRow ++ [gapRow, gapRow]
    position := ⟨4, 18⟩
    tetromino := TETROMINOES .O
    tetrominoType := .O
    score := 0
    gameOver := false
    isPaused := false
    speed := INITIAL_SPEED }

/-- A board whose only full row is at index 5. -/
def oneFullRowBoard : Board :=
  List.replicate 5 emptyRow ++ [fullRow] ++ List.replicate 14 emptyRow

/-! ### Additional getD lemmas for the row-shift description -/

theorem getD_eraseIdx_of_ge (b : Board) (j i : Nat) (hij : j ≤ i) (hi : i + 1 < b.length) :
    (b.eraseIdx j).getD i [] = b.getD (i + 1) [] := by
  have hj : j < b.length := by omega
  have hlen : i < (b.eraseIdx j).length := by
    rw [List.length_eraseIdx_of_lt hj]
    omega
  rw [List.getD_eq_getElem _ _ hlen, List.getD_eq_getElem _ _ hi,
    List.getElem_eraseIdx_of_ge]
  omega

/-! ### Claim theorems -/

/-- C6: the collision predicate returns false iff every set cell of the shape
placed at the origin has absolute x in [0, 10), absolute y < 20, and, when its
absolute row is nonnegative, does not overlap an occupied board cell; cells
with absolute row < 0 never count as colliding. -/
theorem claim_collides_iff (b : Board) (shape : Shape) (pos : Position) :
    isColliding b shape pos = false ↔
      ∀ y < shape.length, ∀ x < (shape.getD y []).length,
        (shape.getD y []).getD x 0 ≠ 0 →
          0 ≤ pos.x + (x : Int) ∧ pos.x + (x : Int) < BOARD_WIDTH ∧
          pos.y + (y : Int) < BOARD_HEIGHT ∧
          (0 ≤ pos.y + (y : Int) → boardGet b (pos.y + (y : Int)) (pos.x + (x : Int)) = 0) :=
  isColliding_eq_false_iff b shape pos

/-- C7: applying the transpose-and-reverse rotation four times restores any
square rectangular mask cell-for-cell; applying it twice to a non-square
rectangular mask restores its bounding-box dimensions; and all seven base
kind masks return to their original mask after four rotations. -/
theorem claim_rotation_cycle :
    (∀ (m : Shape) (n : Nat), RectMask m n n → 0 < n →
      rotateShape (rotateShape (rotateShape (rotateShape m))) = m) ∧
    (∀ (m : Shape) (h w : Nat), RectMask m h w → 0 < h → 0 < w → h ≠ w →
      RectMask (rotateShape (rotateShape m)) h w) ∧
    (∀ k : Kind,
      rotateShape (rotateShape (rotateShape (rotateShape (TETROMINOES k)))) = TETROMINOES k) := by
  refine ⟨fun m n hm hn => rotateShape_four hm hn hn,
    fun m h w hm hh hw _ => rotateShape_rect (rotateShape_rect hm hh) hw,
    fun k => ?_⟩
  cases k <;> decide

theorem claim_rotation_cycle_witness :
    (RectMask (TETROMINOES .O) 2 2 ∧
      rotateShape (rotateShape (rotateShape (rotateShape (TETROMINOES .O)))) = TETROMINOES .O) ∧
    (RectMask (TETROMINOES .T) 2 3 ∧ (2 : Nat) ≠ 3 ∧
      RectMask (rotateShape (rotateShape (TETROMINOES .T))) 2 3) :=
  ⟨⟨⟨by decide, by decide⟩,
    claim_rotation_cycle.1 (TETROMINOES .O) 2 ⟨by decide, by decide⟩ (by decide)⟩,
   ⟨⟨by decide, by decide⟩, by decide,
    claim_rotation_cycle.2.1 (TETROMINOES .T) 2 3 ⟨by decide, by decide⟩
      (by decide) (by decide) (by decide)⟩⟩

/-- C8: on a board with exactly one fully occupied row, the completed-lines
loop reports 1 cleared row, inserts an all-empty row at index 0, shifts every
row above the cleared row down by one index, and leaves rows below unchanged. -/
theorem claim_clear_single_row (b : Board) (j : Nat)
    (hlen : b.length = BOARD_HEIGHT) (hj : j < BOARD_HEIGHT)
    (hfull : rowFull (b.getD j []) = true)
    (hothers : ∀ i < BOARD_HEIGHT, i ≠ j → rowFull (b.getD i []) = false) :
    (clearRows BOARD_HEIGHT b).2 = 1 ∧
    (clearRows BOARD_HEIGHT b).1.getD 0 [] = emptyRow ∧
    (∀ i, 0 < i → i ≤ j → (clearRows BOARD_HEIGHT b).1.getD i [] = b.getD (i - 1) []) ∧
    (∀ i, j < i → i < BOARD_HEIGHT → (clearRows BOARD_HEIGHT b).1.getD i [] = b.getD i []) := by
  have hcr := clearRows_single_full BOARD_HEIGHT b j hj (by omega) hfull hothers
  rw [hcr]
  refine ⟨rfl, List.getD_cons_zero, ?_, ?_⟩
  · intro i h0 hij
    cases i with
    | zero => omega
    | succ i' =>
      rw [List.getD_cons_succ]
      have := getD_eraseIdx_of_lt b j i' (by omega) (by omega)
      simpa using this
  · intro i hji hi
    cases i with
    | zero => omega
    | succ i' =>
      rw [List.getD_cons_succ]
      exact getD_eraseIdx_of_ge b j i' (by omega) (by omega)

theorem claim_clear_single_row_witness :
    oneFullRowBoard.length = BOARD_HEIGHT ∧
    rowFull (oneFullRowBoard.getD 5 []) = true ∧
    (clearRows BOARD_HEIGHT oneFullRowBoard).2 = 1 ∧
    (clearRows BOARD_HEIGHT oneFullRowBoard).1.getD 0 [] = emptyRow :=
  ⟨by decide, by decide,
    (claim_clear_single_row oneFullRowBoard 5 (by decide) (by decide) (by decide) (by decide)).1,
    (claim_clear_single_row oneFullRowBoard 5 (by decide) (by decide) (by decide) (by decide)).2.1⟩

/-- C3: if some set cell of the locking piece maps to a board row below 0,
the merge only sets the game-over flag — the board, score, piece and origin
are untouched and no new piece is spawned — and once the game-over flag is
set, every tick and key command returns the state unchanged. -/
theorem claim_topOut (s : GameState) (k : Kind)
    (h : ∃ y < s.tetromino.length,
      (∃ c ∈ s.tetromino.getD y [], c ≠ 0) ∧ s.position.y + (y : Int) < 0) :
    mergeTetromino k s = { s with gameOver := true } ∧
    ∀ (s' : GameState), s'.gameOver = true →
      (∀ k' : Kind, tick k' s' = s') ∧ (∀ c : Cmd, handleKey c s' = s') := by
  constructor
  · apply mergeTetromino_none
    apply mergeAllCells_eq_none
    obtain ⟨y, hy, hset, hneg⟩ := h
    exact ⟨y, hy, by simpa using hneg, hset⟩
  · intro s' hover
    constructor
    · intro k'
      rw [tick, if_pos (by simp [hover])]
    · intro c
      rw [handleKey.eq_def, if_pos (by simp [hover])]

theorem claim_topOut_witness :
    mergeTetromino .I { stateO with position := ⟨4, -1⟩ } =
      { stateO with position := ⟨4, -1⟩, gameOver := true } :=
  (claim_topOut { stateO with position := ⟨4, -1⟩ } .I (by decide)).1

/-- C4: in every reachable session state, the active piece's origin y is
nonnegative, the game-over flag is false, and no merge from that state can
set the game-over flag — the top-out branch is unreachable during play. -/
theorem claim_gameOver_unreachable {s : GameState} (h : Reachable s) :
    0 ≤ s.position.y ∧ s.gameOver = false ∧
      ∀ k : Kind, (mergeTetromino k s).gameOver = false := by
  obtain ⟨hy, hover, hpb, hwf⟩ := reachable_inv h
  refine ⟨hy, hover, fun k => ?_⟩
  obtain ⟨nb, hnb⟩ := mergeAllCells_isSome s.position hy s.tetromino s.board 0
  rw [mergeTetromino_some hnb]
  exact hover

theorem claim_gameOver_unreachable_witness :
    0 ≤ initState.position.y ∧ initState.gameOver = false ∧
      ∀ k : Kind, (mergeTetromino k initState).gameOver = false :=
  claim_gameOver_unreachable Reachable.init

/-- C10: in every reachable session state, every set cell of the active piece
has absolute x in [0, 10) and absolute y < 20, and the board is exactly
20 rows of width 10, so every cell written by the merge step addresses a
position inside the grid. -/
theorem claim_merge_in_bounds {s : GameState} (h : Reachable s) :
    PieceInBounds s ∧ BoardWF s.board :=
  ⟨(reachable_inv h).2.2.1, (reachable_inv h).2.2.2⟩

theorem claim_merge_in_bounds_witness :
    PieceInBounds initState ∧ BoardWF initState.board :=
  claim_merge_in_bounds Reachable.init

/-- C1 fails on the code: with rows 18 and 19 simultaneously completed by the
locking O piece, the completed-lines loop clears only one of them — the
`unshift` after `splice(19, 1)` moves the remaining full row down into index
19, which the descending scan has already passed — so only 100 points are
scored and a full row remains on the board, where the claim demands both rows
removed and 300 points. -/
theorem claim_simultaneous_clear_bug :
    mergeAllCells doubleRowState.position doubleRowState.board doubleRowState.tetromino 0 =
      some (List.replicate 18 emptyRow ++ [fullRow, fullRow]) ∧
    rowFull fullRow = true ∧
    (((List.replicate 18 emptyRow ++ [fullRow, fullRow]).take 18).all
      fun r => !rowFull r) = true ∧
    (clearRows BOARD_HEIGHT (List.replicate 18 emptyRow ++ [fullRow, fullRow])).2 = 1 ∧
    (tick .I doubleRowState).score = 100 ∧
    rowFull ((tick .I doubleRowState).board.getD 19 []) = true ∧
    (tick .I doubleRowState).board.length = BOARD_HEIGHT := by
  exact ⟨by decide, by decide, by decide, by decide, by decide, by decide, by decide⟩

/-- C2 fails on the code: inside the space-key loop, `moveDown` reads the
render's stale `position` closure, so `while (moveDown()) {}` re-tests the
same one-row move on every iteration.  On the empty board with the O piece
at (4, 0) that move is legal, so the loop never terminates: one hard drop
produces no resulting state at all — in particular neither a piece locked
with its bottom-left cell at (4, 19) nor a newly spawned piece at (4, 0). -/
theorem claim_hardDrop_counterexample :
    (moveDown stateO).2 = true ∧ hardDropResult stateO = none := by
  exact ⟨by decide, by decide⟩

/-- C2 (amended): the hard-drop command never performs the lock/clear/spawn
sequence.  Because every iteration of its loop re-evaluates the move-down
step against the same stale position, the command terminates — returning the
session state completely unchanged — exactly when the piece already cannot
move one row down, and fails to terminate whenever that move is legal; in
the claimed scenario (empty board, O piece spawned at (4, 0)) the move is
legal, so the command diverges and no lock ever takes place. -/
theorem claim_hardDrop_amended :
    (∀ s : GameState,
      hardDropResult s =
        if isColliding s.board s.tetromino ⟨s.position.x, s.position.y + 1⟩ then some s
        else none) ∧
    isColliding stateO.board stateO.tetromino ⟨4, 1⟩ = false ∧
    hardDropResult stateO = none := by
  refine ⟨fun s => ?_, by decide, by decide⟩
  by_cases hc : isColliding s.board s.tetromino ⟨s.position.x, s.position.y + 1⟩ = true
  · simp [hardDropResult, moveDown, hc]
  · have hc' := eq_false_of_ne_true hc
    simp [hardDropResult, moveDown, hc']

/-- C5 fails on the code: `resetGame` never touches the paused flag, so
resetting from a paused state leaves the session paused. -/
theorem claim_reset_counterexample :
    (resetGame .I (togglePause initState)).isPaused = true := rfl

/-- C5 (amended): from any state, reset reinitializes the board to all-empty,
the score to 0, the speed to the initial tick interval, the game-over flag to
false, and spawns the drawn piece at origin (4, 0) — but leaves the paused
flag unchanged. -/
theorem claim_reset_amended (k : Kind) (s : GameState) :
    resetGame k s =
      { board := createEmptyBoard
        position := ⟨4, 0⟩
        tetromino := TETROMINOES k
        tetrominoType := k
        score := 0
        gameOver := false
        isPaused := s.isPaused
        speed := INITIAL_SPEED } := rfl

/-- C9: while paused, every tick and every key command (movement, rotation,
drop) returns the state unchanged — board, active piece and score included;
the pause/resume button merely flips the paused flag, preserving board,
origin, piece and score exactly, and a tick after resuming is the tick of
the preserved state with the paused flag cleared (no re-roll of the piece). -/
theorem claim_pause_freezes (s : GameState) (h : s.isPaused = true) :
    (∀ k : Kind, tick k s = s) ∧ (∀ c : Cmd, handleKey c s = s) ∧
    (togglePause s).board = s.board ∧ (togglePause s).position = s.position ∧
    (togglePause s).tetromino = s.tetromino ∧ (togglePause s).score = s.score ∧
    (togglePause s).isPaused = false ∧
    (∀ k : Kind, tick k (togglePause s) = tick k { s with isPaused := false }) := by
  refine ⟨?_, ?_, rfl, rfl, rfl, rfl, by simp [togglePause, h], ?_⟩
  · intro k
    rw [tick, if_pos (by simp [h])]
  · intro c
    rw [handleKey.eq_def, if_pos (by simp [h])]
  · intro k
    have heq : togglePause s = { s with isPaused := false } := by
      simp [togglePause, h]
    rw [heq]

theorem claim_pause_freezes_witness :
    (togglePause initState).isPaused = true ∧
    tick .I (togglePause initState) = togglePause initState ∧
    handleKey .left (togglePause initState) = togglePause initState :=
  ⟨rfl, (claim_pause_freezes (togglePause initState) rfl).1 .I,
    (claim_pause_freezes (togglePause initState) rfl).2.1 .left⟩

end Tetris
